import Mathlib

set_option maxHeartbeats 1000000

namespace EchoVault

/-!
Shallow embedding of the EchoVault session-vault core: the VS Code Copilot
metadata extractor (legacy full-parse and optimized streaming versions from
apply_optimization.py), the security-gated read command and the known-paths
refresh (update_commands_read.py / update_commands.py), and the Metadata
Store operations exercised by add_test.py.
-/

/-- JSON values as produced by serde_json, with numbers restricted to the
integer (i64) range that the extractor actually consumes (as_i64 / i64
fields). Object bodies keep their field lists in order and may contain
duplicate keys; serde_json builds its value map by inserting entries in
order, so a later duplicate overwrites an earlier one. -/
inductive Json where
  | null : Json
  | bool (b : Bool) : Json
  | num (n : Int) : Json
  | str (s : String) : Json
  | arr (elems : List Json) : Json
  | obj (fields : List (String × Json)) : Json

/-- Value.get(key): defined on objects only; because later duplicates
overwrite earlier ones while the map is built, the last occurrence of the
key wins. -/
def Json.get : Json → String → Option Json
  | .obj fields, key => (fields.reverse.find? (fun p => p.1 == key)).map (fun p => p.2)
  | _, _ => none

/-- Value.as_str(). -/
def Json.asStr : Json → Option String
  | .str s => some s
  | _ => none

/-- Value.as_i64(). -/
def Json.asI64 : Json → Option Int
  | .num n => some n
  | _ => none

/-- Value.as_array(). -/
def Json.asArray : Json → Option (List Json)
  | .arr elems => some elems
  | _ => none

/-- The pieces of a PathBuf consulted by the extractor: file_stem() as UTF-8
(none when absent or not valid UTF-8) and extension() as UTF-8. -/
structure FilePath where
  stem : Option String
  ext : Option String
deriving DecidableEq, Repr

/-- PathBuf::new(), the placeholder vault_path. -/
def FilePath.emptyPath : FilePath := ⟨none, none⟩

/-- The record produced by the extractor; timestamps are kept as epoch
milliseconds (the payload of a chrono DateTime built from them). -/
structure SessionMetadata where
  id : String
  source : String
  title : Option String
  created_at : Option Int
  vault_path : FilePath
  original_path : FilePath
  file_size : Nat
  workspace_name : Option String
  ide_origin : Option String
deriving DecidableEq, Repr

/-- One candidate file as seen by the extractor, represented by its parsed
views of the underlying bytes: doc is the whole content parsed as a single
JSON document (none when the file cannot be opened or read, or is not valid
JSON); lines is the sequence produced by reader.lines() (outer none = I/O
error on that line, inner none = the line text is not valid JSON); openOk is
whether File::open succeeds; metaLen is fs::metadata(path) mapped to len(). -/
structure CandidateFile where
  path : FilePath
  openOk : Bool
  doc : Option Json
  lines : List (Option (Option Json))
  metaLen : Option Nat

/-- The repeated title-truncation idiom of the extractor: collect the first
60 characters and append an ellipsis when the source has more than 60
characters. -/
def truncate60 (s : String) : String :=
  let truncated : String := String.mk (s.data.take 60)
  if s.data.length > 60 then truncated ++ "..." else truncated

/-- Model of chrono Utc.timestamp_millis_opt(ts).single(): yields the
timestamp when it lies in the representable range of chrono date-times and
none otherwise. -/
def timestamp_millis_opt (ts : Int) : Option Int :=
  if -8334601228800000 ≤ ts ∧ ts ≤ 8210266876799999 then some ts else none

/-- The fallback loop over the (already windowed) subsequent lines of a
JSONL file: line-level I/O errors are dropped by flatten(), lines that do
not parse are skipped, and the first line tagged kind = 1 whose string
payload is nonempty and longer than 5 bytes yields the truncated title;
every other line lets the loop continue. -/
def findUserTitle : List (Option (Option Json)) → Option String
  | [] => none
  | none :: rest => findUserTitle rest
  | some none :: rest => findUserTitle rest
  | some (some line) :: rest =>
    if (line.get "kind").bind Json.asI64 == some 1 then
      match (line.get "v").bind Json.asStr with
      | some text =>
        if !text.isEmpty && text.utf8ByteSize > 5 then some (truncate60 text)
        else findUserTitle rest
      | none => findUserTitle rest
    else findUserTitle rest

/-- The JSONL fallback title search of both extractor versions: nothing for
non-JSONL paths, otherwise reopen the file (failure means no title), skip
the header line, and scan at most the next 20 line results. -/
def jsonl_title_fallback (f : CandidateFile) : Option String :=
  if !(f.path.ext == some "jsonl") then none
  else if f.openOk then findUserTitle ((f.lines.drop 1).take 20)
  else none

/-- The requests-based title fallback of the legacy method: the text of the
first entry of the requests array, read through Value accessors. -/
def requestsFirstText (json : Json) : Option String :=
  (((((json.get "requests").bind Json.asArray).bind List.head?).bind
    (fun req => req.get "message")).bind
    (fun msg => msg.get "text")).bind Json.asStr

/-- Target of the derived deserializer for the message stub of the first
request. -/
structure MessageStub where
  text : Option String

/-- Target of the derived deserializer for the first request entry. -/
structure RequestStub where
  message : Option MessageStub

/-- Target of the custom first-request-only deserializer. -/
structure FirstRequestOnly where
  text : Option String

/-- Target of the streaming field-selective deserializer. -/
structure QuickMetadata where
  session_id : Option String
  creation_date : Option Int
  custom_title : Option String
  requests : Option FirstRequestOnly

/-- The values bound to a given field name inside an object body, in order. -/
def fieldOccurrences (fields : List (String × Json)) (key : String) : List Json :=
  (fields.filter (fun p => p.1 == key)).map (fun p => p.2)

/-- Derived deserialization of one struct field of declared type Option<T>
from an object body: a missing field yields none, a unique occurrence is
parsed with the field parser, and serde rejects a duplicate occurrence of a
recognized field. Unknown fields are ignored. -/
def parseField {α : Type} (fields : List (String × Json)) (key : String)
    (p : Json → Option (Option α)) : Option (Option α) :=
  match fieldOccurrences fields key with
  | [] => some none
  | [v] => p v
  | _ => none

/-- Deserialization of an Option<String> field value: JSON null gives none,
a JSON string gives the string, anything else is a type error. -/
def parseOptString : Json → Option (Option String)
  | .null => some none
  | .str s => some (some s)
  | _ => none

/-- Deserialization of an Option<i64> field value. -/
def parseOptI64 : Json → Option (Option Int)
  | .null => some none
  | .num n => some (some n)
  | _ => none

/-- Derived deserialization of MessageStub; struct deserialization is
modelled for JSON-object input. -/
def parseMessageStub : Json → Option MessageStub
  | .obj fields => (parseField fields "text" parseOptString).map (fun t => ⟨t⟩)
  | _ => none

/-- Deserialization of the Option<MessageStub> field value. -/
def parseOptMessageStub : Json → Option (Option MessageStub)
  | .null => some none
  | j => (parseMessageStub j).map some

/-- Derived deserialization of RequestStub. -/
def parseRequestStub : Json → Option RequestStub
  | .obj fields => (parseField fields "message" parseOptMessageStub).map (fun m => ⟨m⟩)
  | _ => none

/-- The custom FirstRequestOnly deserializer: requires a JSON sequence,
parses only the first element as a RequestStub, keeps the text of its
message, and drains the remaining elements as IgnoredAny. -/
def parseFirstRequestOnly : Json → Option FirstRequestOnly
  | .arr [] => some ⟨none⟩
  | .arr (x :: _) => (parseRequestStub x).map (fun r => ⟨r.message.bind (fun m => m.text)⟩)
  | _ => none

/-- Deserialization of the Option<FirstRequestOnly> field value. -/
def parseOptFirstRequestOnly : Json → Option (Option FirstRequestOnly)
  | .null => some none
  | j => (parseFirstRequestOnly j).map some

/-- Derived deserialization of QuickMetadata, the streaming field-selective
reader installed by the optimization: requires a JSON object whose
recognized fields have the declared shapes; unknown fields are ignored. -/
def parseQuickMetadata : Json → Option QuickMetadata
  | .obj fields =>
    match parseField fields "sessionId" parseOptString with
    | none => none
    | some session_id =>
      match parseField fields "creationDate" parseOptI64 with
      | none => none
      | some creation_date =>
        match parseField fields "customTitle" parseOptString with
        | none => none
        | some custom_title =>
          match parseField fields "requests" parseOptFirstRequestOnly with
          | none => none
          | some requests => some ⟨session_id, creation_date, custom_title, requests⟩
  | _ => none

/-- The header tuple computed by the optimized extract_quick_metadata:
(session id, creation date, custom title, first message text), or none when
one of the question-mark operators bails out of the whole extraction. -/
def quickFields (f : CandidateFile) :
    Option (Option String × Option Int × Option String × Option String) :=
  if f.path.ext == some "jsonl" then
    if f.openOk then
      match f.lines.head? with
      | some (some (some wrapper)) =>
        match wrapper.get "v" with
        | some v =>
          some ((v.get "sessionId").bind Json.asStr,
                (v.get "creationDate").bind Json.asI64,
                (v.get "customTitle").bind Json.asStr,
                none)
        | none => none
      | _ => none
    else none
  else
    match f.doc with
    | some j =>
      match parseQuickMetadata j with
      | some md => some (md.session_id, md.creation_date, md.custom_title,
                         md.requests.bind (fun r => r.text))
      | none => none
    | none => none

/-- The optimized (streaming) extract_quick_metadata of the VS Code Copilot
extractor, as installed by apply_optimization.py (new_method). -/
def extract_quick_metadata_new (f : CandidateFile) (workspace_name : String) :
    Option SessionMetadata :=
  match quickFields f with
  | none => none
  | some (session_id, creation_date, custom_title, first_message_text) =>
    let session_id := session_id.getD (f.path.stem.getD "")
    let title :=
      (custom_title.orElse (fun _ => first_message_text.map truncate60)).orElse
        (fun _ => jsonl_title_fallback f)
    let created_at := creation_date.bind timestamp_millis_opt
    let file_size := f.metaLen.getD 0
    some ⟨session_id, "vscode-copilot", title, created_at, FilePath.emptyPath,
          f.path, file_size, some workspace_name, none⟩

/-- The JSON value the legacy extract_quick_metadata works on: the v object
of the first JSONL line, or the whole document for legacy JSON files. -/
def oldJson (f : CandidateFile) : Option Json :=
  if f.path.ext == some "jsonl" then
    if f.openOk then
      match f.lines.head? with
      | some (some (some wrapper)) => wrapper.get "v"
      | _ => none
    else none
  else f.doc

/-- The legacy full-document extract_quick_metadata that the streaming
version replaced (old_method in apply_optimization.py). -/
def extract_quick_metadata_old (f : CandidateFile) (workspace_name : String) :
    Option SessionMetadata :=
  match oldJson f with
  | none => none
  | some json =>
    let session_id := ((json.get "sessionId").bind Json.asStr).getD (f.path.stem.getD "")
    let title :=
      (((json.get "customTitle").bind Json.asStr).orElse
          (fun _ => (requestsFirstText json).map truncate60)).orElse
        (fun _ => jsonl_title_fallback f)
    let created_at := ((json.get "creationDate").bind Json.asI64).bind timestamp_millis_opt
    let file_size := f.metaLen.getD 0
    some ⟨session_id, "vscode-copilot", title, created_at, FilePath.emptyPath,
          f.path, file_size, some workspace_name, none⟩

/-- Canonical absolute paths as component lists: Path::starts_with is
component-wise containment, and equality of the lossy string forms of
canonical absolute paths coincides with component-list equality. -/
abbrev CanonPath := List String

/-- The application configuration consulted by the security gate. -/
structure Config where
  vault_path : String
  export_path : Option String

/-- The process-wide state holding the known-paths set (a HashSet of the
string forms of canonical paths; only membership is observable). -/
structure AppState where
  known_paths : List CanonPath

/-- The filesystem as consulted by the read command: existence of a raw
path, canonicalization of a raw path, metadata length at a canonical path,
and read_to_string at a canonical path. -/
structure FileSystem where
  pathExists : String → Bool
  canonicalize : String → Option CanonPath
  metadataLen : CanonPath → Option Nat
  readToString : CanonPath → Option String

/-- The error kinds surfaced by read_file_content, in the order the checks
appear in the code. -/
inductive ReadError where
  | notFound
  | invalidPath
  | accessDenied
  | metadataFailed
  | tooLarge
  | readFailed
deriving DecidableEq, Repr

/-- The fixed 50 MiB read ceiling. -/
def MAX_SIZE : Nat := 50 * 1024 * 1024

/-- The security-gated read_file_content command installed by
update_commands_read.py; config_load is the result of
Config::load_default(). -/
def read_file_content (fs : FileSystem) (config_load : Option Config)
    (state : AppState) (path : String) : Except ReadError String :=
  if !fs.pathExists path then .error .notFound
  else
    match fs.canonicalize path with
    | none => .error .invalidPath
    | some canonical_path =>
      let allowed :=
        match config_load with
        | some config =>
          let inVault :=
            match fs.canonicalize config.vault_path with
            | some vault_canon => vault_canon.isPrefixOf canonical_path
            | none => false
          if !inVault then
            match config.export_path with
            | some export_path =>
              match fs.canonicalize export_path with
              | some export_canon => export_canon.isPrefixOf canonical_path
              | none => false
            | none => false
          else inVault
        | none => false
      let allowed :=
        if !allowed then state.known_paths.contains canonical_path else allowed
      if !allowed then .error .accessDenied
      else
        match fs.metadataLen canonical_path with
        | none => .error .metadataFailed
        | some len =>
          if len > MAX_SIZE then .error .tooLarge
          else
            match fs.readToString canonical_path with
            | some content => .ok content
            | none => .error .readFailed

/-- Rule (a) of the gate: the canonical path lies under the canonical form
of the configured vault root. -/
def underVaultRoot (fs : FileSystem) (config_load : Option Config) (cp : CanonPath) : Bool :=
  match config_load with
  | some config =>
    match fs.canonicalize config.vault_path with
    | some vault_canon => vault_canon.isPrefixOf cp
    | none => false
  | none => false

/-- Rule (b) of the gate: the canonical path lies under the canonical form
of the configured export root, when one is configured. -/
def underExportRoot (fs : FileSystem) (config_load : Option Config) (cp : CanonPath) : Bool :=
  match config_load with
  | some config =>
    match config.export_path with
    | some export_path =>
      match fs.canonicalize export_path with
      | some export_canon => export_canon.isPrefixOf cp
      | none => false
    | none => false
  | none => false

/-- Rule (c) of the gate: exact membership in the known-paths set. -/
def inKnownPaths (state : AppState) (cp : CanonPath) : Bool :=
  state.known_paths.contains cp

/-- One discovered session summary as consumed by the known-paths update of
scan_sessions. -/
structure ScanSession where
  path : String

/-- The known-paths replacement performed at the end of scan_sessions
(update_commands.py): clear the set, then insert the canonicalization of
every scanned session path whose canonicalization succeeds. -/
def update_known_paths (fs : FileSystem) (sessions : List ScanSession) : List CanonPath :=
  sessions.filterMap (fun session => fs.canonicalize session.path)

/-- Modelled from the spec: the Metadata Store (VaultDb of
apps/core/src/storage/vault_db.rs) is not among the given sources, only the
test added by add_test.py is. Following section 4.2 of the spec it is a
store of records keyed by session id carrying the last recorded
modification time; entries are (id, mtime) pairs, later upserts overwriting
earlier ones. -/
abbrev VaultDb := List (String × Int)

/-- Modelled from the spec: VaultDb::open_in_memory(), an empty ephemeral
store. -/
def VaultDb.open_in_memory : VaultDb := []

/-- Modelled from the spec: upsert_batch inserts or overwrites a record for
each supplied session, keyed by id. -/
def VaultDb.upsert_batch (db : VaultDb) (sessions : List (String × Int)) : VaultDb :=
  sessions.foldl (fun d s => d.filter (fun p => p.1 != s.1) ++ [s]) db

/-- Modelled from the spec: get_all_session_mtimes returns the mapping from
session id to last recorded modification time; absence of an id means not
yet recorded. -/
def VaultDb.get_all_session_mtimes (db : VaultDb) (id : String) : Option Int :=
  (db.find? (fun p => p.1 == id)).map (fun p => p.2)

/-- The explicit custom title embedded in a candidate file, read the way
the extractor reads it: from the header v object for JSONL files, through
the streaming parse for legacy files. -/
def explicitTitle (f : CandidateFile) : Option String :=
  if f.path.ext == some "jsonl" then
    (oldJson f).bind (fun v => (v.get "customTitle").bind Json.asStr)
  else
    (f.doc.bind parseQuickMetadata).bind (fun md => md.custom_title)

/-- The embedded sessionId string of a candidate file, when present: read
from the header v object for JSONL files and from the document object for
legacy files. -/
def embeddedSessionId (f : CandidateFile) : Option String :=
  if f.path.ext == some "jsonl" then
    (oldJson f).bind (fun v => (v.get "sessionId").bind Json.asStr)
  else
    f.doc.bind (fun j => (j.get "sessionId").bind Json.asStr)

/-- Whether the streaming deserializer accepts the document view of a
candidate file (vacuously true when the file does not parse as a document
at all, since then both extractor versions bail out identically). -/
def streamingAccepts (f : CandidateFile) : Bool :=
  match f.doc with
  | none => true
  | some j => (parseQuickMetadata j).isSome

/-- Whether one windowed JSONL line yields a fallback title: the line must
be read without I/O error, parse as JSON, be tagged kind = 1 and carry a
nonempty string payload of more than 5 UTF-8 bytes; the title is then the
truncated payload. -/
def qualifyingTitle : Option (Option Json) → Option String
  | some (some line) =>
    if (line.get "kind").bind Json.asI64 == some 1 then
      match (line.get "v").bind Json.asStr with
      | some text =>
        if !text.isEmpty && text.utf8ByteSize > 5 then some (truncate60 text)
        else none
      | none => none
    else none
  | _ => none

/-- Decidable equality of read results, used to evaluate the gate on
concrete inputs. -/
instance {ε α : Type} [DecidableEq ε] [DecidableEq α] : DecidableEq (Except ε α) := fun a b =>
  match a, b with
  | .ok x, .ok y =>
    if h : x = y then isTrue (by rw [h]) else isFalse (fun hc => h (by injection hc))
  | .error x, .error y =>
    if h : x = y then isTrue (by rw [h]) else isFalse (fun hc => h (by injection hc))
  | .ok _, .error _ => isFalse (fun hc => Except.noConfusion hc)
  | .error _, .ok _ => isFalse (fun hc => Except.noConfusion hc)

/-- Concrete filesystem for the C1 witness: one file inside the vault. -/
def fsC1 : FileSystem :=
  ⟨fun p => p == "/vault/a.json",
   fun p =>
     if p == "/vault/a.json" then some ["vault", "a.json"]
     else if p == "/vault" then some ["vault"] else none,
   fun _ => some 10,
   fun _ => some "content"⟩

/-- Concrete configuration for the C1 witness. -/
def cfgC1 : Config := ⟨"/vault", none⟩

/-- Concrete filesystem for the C2 counterexample: an oversized file on a
path no rule authorizes. -/
def fsC2 : FileSystem :=
  ⟨fun p => p == "/tmp/big.txt",
   fun p => if p == "/tmp/big.txt" then some ["tmp", "big.txt"] else none,
   fun cp => if cp == ["tmp", "big.txt"] then some 52428801 else none,
   fun _ => none⟩

/-- Concrete filesystem for the C2 witness: an oversized file inside the
vault. -/
def fsC2w : FileSystem :=
  ⟨fun p => p == "/vault/big.json",
   fun p =>
     if p == "/vault/big.json" then some ["vault", "big.json"]
     else if p == "/vault" then some ["vault"] else none,
   fun cp => if cp == ["vault", "big.json"] then some 52428801 else none,
   fun _ => some "x"⟩

/-- Concrete configuration for the C2 witness. -/
def cfgC2w : Config := ⟨"/vault", none⟩

/-- Concrete candidate file for the C3 counterexample: a legacy file whose
whole document is the JSON number 5. -/
def fC3 : CandidateFile := ⟨⟨some "abc", some "json"⟩, true, some (.num 5), [], some 10⟩

/-- Concrete candidate file for the C3 witness: a well-shaped legacy
document. -/
def fC3w : CandidateFile :=
  ⟨⟨some "abc", some "json"⟩, true,
   some (.obj [("sessionId", .str "s1"), ("creationDate", .num 1700000000000),
               ("customTitle", .str "Hello")]),
   [], some 5⟩

/-- A 64-character explicit title. -/
def longTitle64 : String := String.mk (List.replicate 64 'a')

/-- Concrete candidate file for C4: a legacy file with a 64-character
explicit custom title. -/
def fC4 : CandidateFile :=
  ⟨⟨some "abc", some "json"⟩, true, some (.obj [("customTitle", .str longTitle64)]), [], some 9⟩

/-- The record extracted from fC4. -/
def mC4 : SessionMetadata :=
  ⟨"abc", "vscode-copilot", some longTitle64, none, FilePath.emptyPath,
   ⟨some "abc", some "json"⟩, 9, some "w", none⟩

/-- Concrete candidate file for the C5 counterexample: a JSONL file whose
only user-tagged line has 3 characters spanning 6 UTF-8 bytes. -/
def fC5 : CandidateFile :=
  ⟨⟨some "sess", some "jsonl"⟩, true, none,
   [some (some (.obj [("v", .obj [])])),
    some (some (.obj [("kind", .num 1), ("v", .str "ééé")]))], some 1⟩

/-- Concrete candidate file for the C5 witness: no header title, one short
user line that is skipped, then a qualifying user line. -/
def fC5w : CandidateFile :=
  ⟨⟨some "sess2", some "jsonl"⟩, true, none,
   [some (some (.obj [("v", .obj [("sessionId", .str "s9")])])),
    some (some (.obj [("kind", .num 2), ("v", .str "ignored")])),
    some (some (.obj [("kind", .num 1), ("v", .str "short")])),
    some (some (.obj [("kind", .num 1), ("v", .str "hello world")]))], some 4⟩

/-- The record extracted from fC5w. -/
def mC5w : SessionMetadata :=
  ⟨"s9", "vscode-copilot", some "hello world", none, FilePath.emptyPath,
   ⟨some "sess2", some "jsonl"⟩, 4, some "w", none⟩

/-- Concrete filesystem for the C6 witness. -/
def fsC6 : FileSystem :=
  ⟨fun p => p == "/data/s1.json",
   fun p => if p == "/data/s1.json" then some ["data", "s1.json"] else none,
   fun _ => some 3,
   fun _ => some "txt"⟩

/-- Concrete scan result for the C6 witness. -/
def sessionsC6 : List ScanSession := [⟨"/data/s1.json"⟩]

/-- Concrete candidate file for the C7 witness: an embedded sessionId. -/
def fC7 : CandidateFile :=
  ⟨⟨some "file7", some "json"⟩, true, some (.obj [("sessionId", .str "id7")]), [], some 2⟩

/-- The record extracted from fC7. -/
def mC7 : SessionMetadata :=
  ⟨"id7", "vscode-copilot", none, none, FilePath.emptyPath,
   ⟨some "file7", some "json"⟩, 2, some "w", none⟩

/-- Concrete filesystem for the C10 witness: a known path readable with a
failed configuration load. -/
def fsC10 : FileSystem :=
  ⟨fun p => p == "/k/f.json",
   fun p => if p == "/k/f.json" then some ["k", "f.json"] else none,
   fun _ => some 1,
   fun _ => some "y"⟩

/-- find? returns the head of the filtered list. -/
theorem find?_eq_head?_filter {α : Type} (p : α → Bool) (l : List α) :
    l.find? p = (l.filter p).head? := by
  induction l with
  | nil => rfl
  | cons x xs ih =>
    rw [List.find?_cons, List.filter_cons]
    cases h : p x
    · rw [if_neg (by simp)]
      exact ih
    · simp

/-- A key with no occurrence in an object body is absent from the value map. -/
theorem get_of_occurrences_nil (fields : List (String × Json)) (key : String)
    (h : fieldOccurrences fields key = []) : (Json.obj fields).get key = none := by
  have hf : fields.filter (fun p => p.1 == key) = [] := List.map_eq_nil_iff.mp h
  simp only [Json.get]
  rw [find?_eq_head?_filter, List.filter_reverse, hf]
  rfl

/-- A key with exactly one occurrence in an object body is mapped to it. -/
theorem get_of_occurrences_one (fields : List (String × Json)) (key : String) (v : Json)
    (h : fieldOccurrences fields key = [v]) : (Json.obj fields).get key = some v := by
  unfold fieldOccurrences at h
  cases hf : fields.filter (fun p => p.1 == key) with
  | nil => rw [hf] at h; exact absurd h (by simp)
  | cons pr tl =>
    cases tl with
    | nil =>
      rw [hf] at h
      simp only [List.map_cons, List.map_nil, List.cons.injEq, and_true] at h
      simp only [Json.get]
      rw [find?_eq_head?_filter, List.filter_reverse, hf]
      simp [h]
    | cons pr2 tl2 =>
      rw [hf] at h
      exact absurd h (by simp)

/-- Case analysis for a successful single-field parse, relating it to the
Value-level get. -/
theorem parseField_cases {α : Type} (fields : List (String × Json)) (key : String)
    (p : Json → Option (Option α)) (res : Option α)
    (h : parseField fields key p = some res) :
    ((Json.obj fields).get key = none ∧ res = none) ∨
    (∃ v, (Json.obj fields).get key = some v ∧ p v = some res) := by
  unfold parseField at h
  cases ho : fieldOccurrences fields key with
  | nil =>
    rw [ho] at h
    simp only [Option.some.injEq] at h
    exact Or.inl ⟨get_of_occurrences_nil fields key ho, h.symm⟩
  | cons v tl =>
    cases tl with
    | nil =>
      rw [ho] at h
      exact Or.inr ⟨v, get_of_occurrences_one fields key v ho, h⟩
    | cons w tl2 =>
      rw [ho] at h
      exact absurd h (by simp)

/-- A successfully parsed Option<String> field agrees with get + as_str. -/
theorem parseField_asStr (fields : List (String × Json)) (key : String) (res : Option String)
    (h : parseField fields key parseOptString = some res) :
    ((Json.obj fields).get key).bind Json.asStr = res := by
  rcases parseField_cases fields key parseOptString res h with ⟨hg, rfl⟩ | ⟨v, hg, hp⟩
  · rw [hg]; rfl
  · rw [hg]
    cases v <;> simp [parseOptString] at hp <;> simp [Json.asStr, Option.bind, hp]

/-- A successfully parsed Option<i64> field agrees with get + as_i64. -/
theorem parseField_asI64 (fields : List (String × Json)) (key : String) (res : Option Int)
    (h : parseField fields key parseOptI64 = some res) :
    ((Json.obj fields).get key).bind Json.asI64 = res := by
  rcases parseField_cases fields key parseOptI64 res h with ⟨hg, rfl⟩ | ⟨v, hg, hp⟩
  · rw [hg]; rfl
  · rw [hg]
    cases v <;> simp [parseOptI64] at hp <;> simp [Json.asI64, Option.bind, hp]

/-- A successfully parsed first request agrees with the Value-level access
path through message and text. -/
theorem requestStub_text (x : Json) (rs : RequestStub) (h : parseRequestStub x = some rs) :
    ((x.get "message").bind (fun msg => msg.get "text")).bind Json.asStr
      = rs.message.bind (fun m => m.text) := by
  cases x with
  | obj fields =>
    simp only [parseRequestStub] at h
    cases hm : parseField fields "message" parseOptMessageStub with
    | none => rw [hm] at h; exact absurd h (by simp)
    | some msg =>
      rw [hm] at h
      simp only [Option.map_some', Option.some.injEq] at h
      subst h
      rcases parseField_cases fields "message" parseOptMessageStub msg hm with ⟨hg, rfl⟩ | ⟨v, hg, hp⟩
      · rw [hg]; rfl
      · rw [hg]
        cases v with
        | null =>
          simp only [parseOptMessageStub, Option.some.injEq] at hp
          subst hp
          rfl
        | obj fields2 =>
          simp only [parseOptMessageStub, parseMessageStub] at hp
          cases ht : parseField fields2 "text" parseOptString with
          | none => rw [ht] at hp; exact absurd hp (by simp)
          | some t =>
            rw [ht] at hp
            simp only [Option.map_some', Option.some.injEq] at hp
            subst hp
            simp only [Option.some_bind]
            exact parseField_asStr fields2 "text" t ht
        | bool b => simp [parseOptMessageStub, parseMessageStub] at hp
        | num n => simp [parseOptMessageStub, parseMessageStub] at hp
        | str s => simp [parseOptMessageStub, parseMessageStub] at hp
        | arr es => simp [parseOptMessageStub, parseMessageStub] at hp
  | null => exact absurd h (by simp [parseRequestStub])
  | bool b => exact absurd h (by simp [parseRequestStub])
  | num n => exact absurd h (by simp [parseRequestStub])
  | str s => exact absurd h (by simp [parseRequestStub])
  | arr es => exact absurd h (by simp [parseRequestStub])

/-- A successfully parsed requests field agrees with the Value-level access
path of the legacy fallback. -/
theorem parseField_requests (fields : List (String × Json)) (res : Option FirstRequestOnly)
    (h : parseField fields "requests" parseOptFirstRequestOnly = some res) :
    requestsFirstText (Json.obj fields) = res.bind (fun r => r.text) := by
  rcases parseField_cases fields "requests" parseOptFirstRequestOnly res h with ⟨hg, rfl⟩ | ⟨v, hg, hp⟩
  · unfold requestsFirstText
    rw [hg]
    rfl
  · unfold requestsFirstText
    rw [hg]
    cases v with
    | null =>
      simp only [parseOptFirstRequestOnly, Option.some.injEq] at hp
      subst hp
      rfl
    | arr elems =>
      cases elems with
      | nil =>
        simp only [parseOptFirstRequestOnly, parseFirstRequestOnly, Option.map_some', Option.some.injEq] at hp
        subst hp
        rfl
      | cons x xs =>
        simp only [parseOptFirstRequestOnly, parseFirstRequestOnly] at hp
        cases hr : parseRequestStub x with
        | none => rw [hr] at hp; exact absurd hp (by simp)
        | some rs =>
          rw [hr] at hp
          simp only [Option.map_some', Option.some.injEq] at hp
          subst hp
          simp only [Option.some_bind, Json.asArray, List.head?_cons]
          exact requestStub_text x rs hr
    | bool b => simp [parseOptFirstRequestOnly, parseFirstRequestOnly] at hp
    | num n => simp [parseOptFirstRequestOnly, parseFirstRequestOnly] at hp
    | str s => simp [parseOptFirstRequestOnly, parseFirstRequestOnly] at hp
    | obj fs => simp [parseOptFirstRequestOnly, parseFirstRequestOnly] at hp

/-- The components of a successful streaming parse coincide with the
Value-level accesses performed by the legacy method. -/
theorem parseQuickMetadata_fields (j : Json) (md : QuickMetadata)
    (h : parseQuickMetadata j = some md) :
    md.session_id = (j.get "sessionId").bind Json.asStr ∧
    md.creation_date = (j.get "creationDate").bind Json.asI64 ∧
    md.custom_title = (j.get "customTitle").bind Json.asStr ∧
    md.requests.bind (fun r => r.text) = requestsFirstText j := by
  cases j with
  | obj fields =>
    simp only [parseQuickMetadata] at h
    cases h1 : parseField fields "sessionId" parseOptString with
    | none => rw [h1] at h; exact absurd h (by simp)
    | some sid =>
      rw [h1] at h
      cases h2 : parseField fields "creationDate" parseOptI64 with
      | none => rw [h2] at h; exact absurd h (by simp)
      | some cd =>
        rw [h2] at h
        cases h3 : parseField fields "customTitle" parseOptString with
        | none => rw [h3] at h; exact absurd h (by simp)
        | some ct =>
          rw [h3] at h
          cases h4 : parseField fields "requests" parseOptFirstRequestOnly with
          | none => rw [h4] at h; exact absurd h (by simp)
          | some rq =>
            rw [h4] at h
            simp only [Option.some.injEq] at h
            subst h
            exact ⟨(parseField_asStr fields "sessionId" sid h1).symm,
                   (parseField_asI64 fields "creationDate" cd h2).symm,
                   (parseField_asStr fields "customTitle" ct h3).symm,
                   (parseField_requests fields rq h4).symm⟩
  | null => exact absurd h (by simp [parseQuickMetadata])
  | bool b => exact absurd h (by simp [parseQuickMetadata])
  | num n => exact absurd h (by simp [parseQuickMetadata])
  | str s => exact absurd h (by simp [parseQuickMetadata])
  | arr es => exact absurd h (by simp [parseQuickMetadata])

/-- The components of a successful header-tuple computation coincide with
the spec-side embedded session id and explicit title. -/
theorem quickFields_components (f : CandidateFile) (sid : Option String) (cd : Option Int)
    (ct : Option String) (fmt : Option String)
    (h : quickFields f = some (sid, cd, ct, fmt)) :
    embeddedSessionId f = sid ∧ explicitTitle f = ct := by
  unfold quickFields at h
  unfold embeddedSessionId explicitTitle oldJson
  cases he : f.path.ext == some "jsonl" with
  | true =>
    simp only [he, if_true] at h ⊢
    cases ho : f.openOk with
    | false => simp [ho] at h
    | true =>
      simp only [ho, if_true] at h ⊢
      cases hl : f.lines.head? with
      | none => simp [hl] at h
      | some r1 =>
        cases r1 with
        | none => simp [hl] at h
        | some r2 =>
          cases r2 with
          | none => simp [hl] at h
          | some wrapper =>
            simp only [hl] at h ⊢
            cases hv : wrapper.get "v" with
            | none => simp [hl, hv] at h
            | some v =>
              simp only [hv, Option.some.injEq, Prod.mk.injEq, Option.some_bind] at h ⊢
              obtain ⟨h1, h2, h3, h4⟩ := h
              exact ⟨h1, h3⟩
  | false =>
    simp only [he, Bool.false_eq_true, if_false] at h ⊢
    cases hd : f.doc with
    | none => simp [hd] at h
    | some j =>
      simp only [hd, Option.some_bind] at h ⊢
      cases hp : parseQuickMetadata j with
      | none => simp [hd, hp] at h
      | some md =>
        simp only [hp, Option.some.injEq, Prod.mk.injEq, Option.some_bind] at h ⊢
        obtain ⟨h1, h2, h3, h4⟩ := h
        obtain ⟨g1, g2, g3, g4⟩ := parseQuickMetadata_fields j md hp
        constructor
        · rw [← g1, h1]
        · rw [h3]


/-- C3 (amended): the two extractor versions agree away from the two
divergence sources: a JSONL header whose v object would feed the legacy
requests-based fallback, and a legacy document rejected by the streaming
deserializer (which the optimized version maps to none). -/
theorem extract_quick_metadata_agrees (f : CandidateFile) (ws : String)
    (hjsonl : f.path.ext = some "jsonl" → (oldJson f).bind requestsFirstText = none)
    (hlegacy : f.path.ext ≠ some "jsonl" → streamingAccepts f = true) :
    extract_quick_metadata_old f ws = extract_quick_metadata_new f ws := by
  by_cases he : f.path.ext = some "jsonl"
  · have heb : (f.path.ext == some "jsonl") = true := by simp [he]
    have hreq := hjsonl he
    unfold oldJson at hreq
    unfold extract_quick_metadata_old extract_quick_metadata_new quickFields oldJson
    simp only [heb, if_true] at hreq ⊢
    cases ho : f.openOk with
    | false => simp [ho]
    | true =>
      simp only [ho, if_true] at hreq ⊢
      cases hl : f.lines.head? with
      | none => simp [hl]
      | some r1 =>
        cases r1 with
        | none => simp [hl]
        | some r2 =>
          cases r2 with
          | none => simp [hl]
          | some wrapper =>
            simp only [hl] at hreq ⊢
            cases hv : wrapper.get "v" with
            | none => simp [hv]
            | some v =>
              simp only [hv, Option.some_bind] at hreq ⊢
              simp only [hreq, Option.map_none']
  · have heb : (f.path.ext == some "jsonl") = false := by simp [he]
    have hacc := hlegacy he
    unfold streamingAccepts at hacc
    unfold extract_quick_metadata_old extract_quick_metadata_new quickFields oldJson
    simp only [heb, Bool.false_eq_true, if_false] at hacc ⊢
    cases hd : f.doc with
    | none => simp [hd]
    | some j =>
      simp only [hd] at hacc ⊢
      obtain ⟨md, hp⟩ := Option.isSome_iff_exists.mp hacc
      simp only [hp]
      obtain ⟨g1, g2, g3, g4⟩ := parseQuickMetadata_fields j md hp
      rw [g1, g2, g3, ← g4]

/-- Truncation leaves a short source string untouched. -/
theorem truncate60_of_le (s : String) (h : s.data.length ≤ 60) : truncate60 s = s := by
  simp only [truncate60]
  rw [List.take_of_length_le h, if_neg (by omega)]

/-- Truncation of a long source keeps 60 characters and appends the
three-character ellipsis. -/
theorem truncate60_of_gt (s : String) (h : 60 < s.data.length) :
    (truncate60 s).data = s.data.take 60 ++ ('.' :: '.' :: '.' :: []) := by
  simp only [truncate60, h, if_true, String.data_append]

/-- Every truncated title has at most 63 characters. -/
theorem truncate60_length_le (s : String) : (truncate60 s).data.length ≤ 63 := by
  rcases le_or_lt s.data.length 60 with h | h
  · rw [truncate60_of_le s h]; omega
  · rw [truncate60_of_gt s h]
    simp [List.length_take]

/-- A fallback title found in the JSONL window is a truncation of some
source text. -/
theorem findUserTitle_shape (l : List (Option (Option Json))) (t : String)
    (h : findUserTitle l = some t) : ∃ s, t = truncate60 s := by
  induction l with
  | nil => exact absurd h (by simp [findUserTitle])
  | cons x rest ih =>
    cases x with
    | none => exact ih (by simpa [findUserTitle] using h)
    | some y =>
      cases y with
      | none => exact ih (by simpa [findUserTitle] using h)
      | some line =>
        simp only [findUserTitle] at h
        cases hk : (line.get "kind").bind Json.asI64 == some 1 with
        | false => simp only [hk, Bool.false_eq_true, if_false] at h; exact ih h
        | true =>
          simp only [hk, if_true] at h
          cases hv : (line.get "v").bind Json.asStr with
          | none => simp only [hv] at h; exact ih h
          | some text =>
            simp only [hv] at h
            cases hb : !text.isEmpty && decide (text.utf8ByteSize > 5) with
            | false => simp only [hb, Bool.false_eq_true, if_false] at h; exact ih h
            | true =>
              simp only [hb, if_true, Option.some.injEq] at h
              exact ⟨text, h.symm⟩

/-- The JSONL fallback loop returns the first qualifying line of the
window. -/
theorem findUserTitle_eq_findSome (l : List (Option (Option Json))) :
    findUserTitle l = l.findSome? qualifyingTitle := by
  induction l with
  | nil => rfl
  | cons x rest ih =>
    cases x with
    | none => simp [findUserTitle, List.findSome?_cons, qualifyingTitle, ih]
    | some y =>
      cases y with
      | none => simp [findUserTitle, List.findSome?_cons, qualifyingTitle, ih]
      | some line =>
        simp only [findUserTitle, List.findSome?_cons, qualifyingTitle]
        cases hk : (line.get "kind").bind Json.asI64 == some 1 with
        | false => simp only [hk, Bool.false_eq_true, if_false]; exact ih
        | true =>
          simp only [hk, if_true]
          cases hv : (line.get "v").bind Json.asStr with
          | none => simp only [ih]
          | some text =>
            cases hb : !text.isEmpty && decide (text.utf8ByteSize > 5) with
            | false => simp only [hb, Bool.false_eq_true, if_false]; exact ih
            | true => simp only [hb, if_true]

/-- Bundled truncation facts. -/
theorem truncate60_cases (s : String) :
    (truncate60 s).data.length ≤ 63 ∧
    (s.data.length ≤ 60 → truncate60 s = s) ∧
    (60 < s.data.length → (truncate60 s).data = s.data.take 60 ++ ('.' :: '.' :: '.' :: [])) :=
  ⟨truncate60_length_le s, truncate60_of_le s, truncate60_of_gt s⟩

/-- In the JSONL branch a successful header tuple always carries no first
message text and implies the file opened. -/
theorem quickFields_jsonl (f : CandidateFile) (sid : Option String) (cd : Option Int)
    (ct : Option String) (fmt : Option String)
    (he : f.path.ext = some "jsonl")
    (h : quickFields f = some (sid, cd, ct, fmt)) :
    fmt = none ∧ f.openOk = true := by
  unfold quickFields at h
  simp only [show (f.path.ext == some "jsonl") = true by simp [he], if_true] at h
  cases ho : f.openOk with
  | false => simp [ho] at h
  | true =>
    refine ⟨?_, rfl⟩
    simp only [ho, if_true] at h
    cases hl : f.lines.head? with
    | none => simp [hl] at h
    | some r1 =>
      cases r1 with
      | none => simp [hl] at h
      | some r2 =>
        cases r2 with
        | none => simp [hl] at h
        | some wrapper =>
          simp only [hl] at h
          cases hv : wrapper.get "v" with
          | none => simp [hv] at h
          | some v =>
            simp only [hv, Option.some.injEq, Prod.mk.injEq] at h
            exact h.2.2.2.symm

/-- C4 (amended): an extracted title is either the explicit custom title,
carried over verbatim, or the truncation of some fallback source text, in
which case it has at most 63 characters, equals the source when the source
has at most 60 characters, and otherwise is the first 60 characters of the
source followed by the three-character ellipsis. -/
theorem extract_new_title_bound (f : CandidateFile) (ws : String) (m : SessionMetadata)
    (t : String) (hm : extract_quick_metadata_new f ws = some m) (ht : m.title = some t) :
    explicitTitle f = some t ∨
      ∃ s, t = truncate60 s ∧ t.data.length ≤ 63 ∧
        (s.data.length ≤ 60 → t = s) ∧
        (60 < s.data.length → t.data = s.data.take 60 ++ ('.' :: '.' :: '.' :: [])) := by
  unfold extract_quick_metadata_new at hm
  cases hq : quickFields f with
  | none => rw [hq] at hm; exact absurd hm (by simp)
  | some q =>
    obtain ⟨sid, cd, ct, fmt⟩ := q
    rw [hq] at hm
    simp only [Option.some.injEq] at hm
    subst hm
    obtain ⟨hsid, hctE⟩ := quickFields_components f sid cd ct fmt hq
    simp only at ht
    cases hctv : ct with
    | some c =>
      left
      rw [hctv] at ht
      simp only [Option.orElse] at ht
      rw [hctE, hctv, ht]
    | none =>
      right
      rw [hctv] at ht
      simp only [Option.orElse] at ht
      cases hfmt : fmt with
      | some s0 =>
        rw [hfmt] at ht
        simp only [Option.map_some', Option.some.injEq] at ht
        obtain ⟨hle, hof, hgt⟩ := truncate60_cases s0
        exact ⟨s0, ht.symm, ht ▸ hle, fun h60 => ht ▸ hof h60, fun h60 => ht ▸ hgt h60⟩
      | none =>
        rw [hfmt] at ht
        simp only [Option.map_none'] at ht
        unfold jsonl_title_fallback at ht
        cases heb : f.path.ext == some "jsonl" with
        | false => simp [heb] at ht
        | true =>
          simp only [heb, Bool.not_true, Bool.false_eq_true, if_false] at ht
          cases ho : f.openOk with
          | false => simp [ho] at ht
          | true =>
            simp only [ho, if_true] at ht
            obtain ⟨s0, hs0⟩ := findUserTitle_shape _ t ht
            obtain ⟨hle, hof, hgt⟩ := truncate60_cases s0
            exact ⟨s0, hs0, hs0 ▸ hle, fun h60 => hs0 ▸ hof h60, fun h60 => hs0 ▸ hgt h60⟩


/-- C5 (amended): for a JSONL file whose header carries no explicit title,
the extracted title is the result of scanning at most the 20 line results
after the header and taking the first line tagged kind = 1 whose nonempty
string payload has more than 5 UTF-8 bytes, truncated; shorter user-tagged
entries are skipped, and the title is absent when no line qualifies. -/
theorem jsonl_fallback_window (f : CandidateFile) (ws : String) (m : SessionMetadata)
    (he : f.path.ext = some "jsonl")
    (hm : extract_quick_metadata_new f ws = some m)
    (hct : explicitTitle f = none) :
    m.title = ((f.lines.drop 1).take 20).findSome? qualifyingTitle := by
  unfold extract_quick_metadata_new at hm
  cases hq : quickFields f with
  | none => rw [hq] at hm; exact absurd hm (by simp)
  | some q =>
    obtain ⟨sid, cd, ct, fmt⟩ := q
    rw [hq] at hm
    simp only [Option.some.injEq] at hm
    subst hm
    obtain ⟨hsid, hctE⟩ := quickFields_components f sid cd ct fmt hq
    obtain ⟨hfmt, ho⟩ := quickFields_jsonl f sid cd ct fmt he hq
    simp only
    rw [hfmt, ← hctE, hct]
    simp only [Option.orElse, Option.map_none']
    unfold jsonl_title_fallback
    simp only [show (f.path.ext == some "jsonl") = true by simp [he], Bool.not_true,
               Bool.false_eq_true, if_false, ho, if_true]
    exact findUserTitle_eq_findSome _

/-- C7: the session id of every extracted record is the embedded sessionId
string when one is present, and the file stem (empty when the stem is
unavailable) otherwise. -/
theorem session_id_rule (f : CandidateFile) (ws : String) (m : SessionMetadata)
    (hm : extract_quick_metadata_new f ws = some m) :
    m.id = (embeddedSessionId f).getD (f.path.stem.getD "") := by
  unfold extract_quick_metadata_new at hm
  cases hq : quickFields f with
  | none => rw [hq] at hm; exact absurd hm (by simp)
  | some q =>
    obtain ⟨sid, cd, ct, fmt⟩ := q
    rw [hq] at hm
    simp only [Option.some.injEq] at hm
    subst hm
    obtain ⟨hsid, hctE⟩ := quickFields_components f sid cd ct fmt hq
    simp only
    rw [hsid]

/-- C9: a failure of the size-metadata call does not abort extraction; the
result is the same record with file_size defaulted to 0. -/
theorem file_size_failure_defaults_zero (f : CandidateFile) (ws : String) :
    extract_quick_metadata_new { f with metaLen := none } ws
      = (extract_quick_metadata_new f ws).map (fun m => { m with file_size := 0 }) := by
  have hq : quickFields { f with metaLen := none } = quickFields f := rfl
  have hj : jsonl_title_fallback { f with metaLen := none } = jsonl_title_fallback f := rfl
  unfold extract_quick_metadata_new
  rw [hq]
  cases hqf : quickFields f with
  | none => simp
  | some q =>
    obtain ⟨sid, cd, ct, fmt⟩ := q
    simp [hj]

/-- The post-authorization tail of read_file_content never reports access
denied. -/
theorem read_tail_ne_denied (fs : FileSystem) (cp : CanonPath) :
    (match fs.metadataLen cp with
      | none => (Except.error ReadError.metadataFailed : Except ReadError String)
      | some len =>
        if len > MAX_SIZE then Except.error ReadError.tooLarge
        else
          match fs.readToString cp with
          | some content => Except.ok content
          | none => Except.error ReadError.readFailed)
      ≠ Except.error ReadError.accessDenied := by
  cases hmt : fs.metadataLen cp with
  | none => simp
  | some len =>
    by_cases hl : len > MAX_SIZE
    · simp [hl]
    · cases hr : fs.readToString cp with
      | none => simp [hl, hr]
      | some c => simp [hl, hr]

/-- Core gate characterization: with the requested path existing and
canonicalizing, the command reports access denied exactly when no rule
matches the canonical path. -/
theorem gate_denies_iff_no_rule (fs : FileSystem) (cfg : Option Config) (st : AppState)
    (path : String) (cp : CanonPath)
    (hex : fs.pathExists path = true)
    (hcanon : fs.canonicalize path = some cp) :
    read_file_content fs cfg st path = Except.error ReadError.accessDenied ↔
      (underVaultRoot fs cfg cp || underExportRoot fs cfg cp || inKnownPaths st cp) = false := by
  unfold read_file_content underVaultRoot underExportRoot inKnownPaths
  simp only [hex, Bool.not_true, Bool.false_eq_true, if_false, hcanon]
  cases cfg with
  | none =>
    cases hk : st.known_paths.contains cp with
    | false => simp [hk]
    | true => simp [hk, read_tail_ne_denied fs cp]
  | some config =>
    cases hv : fs.canonicalize config.vault_path with
    | none =>
      simp only [hv, Bool.not_false, if_true]
      cases hep : config.export_path with
      | none =>
        cases hk : st.known_paths.contains cp with
        | false => simp [hep, hk]
        | true => simp [hep, hk, read_tail_ne_denied fs cp]
      | some export_path =>
        cases he : fs.canonicalize export_path with
        | none =>
          cases hk : st.known_paths.contains cp with
          | false => simp [hep, he, hk]
          | true => simp [hep, he, hk, read_tail_ne_denied fs cp]
        | some export_canon =>
          cases hpe : export_canon.isPrefixOf cp with
          | true => simp [hep, he, hpe, read_tail_ne_denied fs cp]
          | false =>
            cases hk : st.known_paths.contains cp with
            | false => simp [hep, he, hpe, hk]
            | true => simp [hep, he, hpe, hk, read_tail_ne_denied fs cp]
    | some vault_canon =>
      cases hpv : vault_canon.isPrefixOf cp with
      | true => simp [hv, hpv, read_tail_ne_denied fs cp]
      | false =>
        simp only [hv, hpv, Bool.not_false, if_true]
        cases hep : config.export_path with
        | none =>
          cases hk : st.known_paths.contains cp with
          | false => simp [hep, hk]
          | true => simp [hep, hk, read_tail_ne_denied fs cp]
        | some export_path =>
          cases he : fs.canonicalize export_path with
          | none =>
            cases hk : st.known_paths.contains cp with
            | false => simp [hep, he, hk]
            | true => simp [hep, he, hk, read_tail_ne_denied fs cp]
          | some export_canon =>
            cases hpe : export_canon.isPrefixOf cp with
            | true => simp [hep, he, hpe, read_tail_ne_denied fs cp]
            | false =>
              cases hk : st.known_paths.contains cp with
              | false => simp [hep, he, hpe, hk]
              | true => simp [hep, he, hpe, hk, read_tail_ne_denied fs cp]


/-- When some rule authorizes the canonical path, read_file_content runs
the size check and the read, in that order. -/
theorem read_authorized_eq_tail (fs : FileSystem) (cfg : Option Config) (st : AppState)
    (path : String) (cp : CanonPath)
    (hex : fs.pathExists path = true)
    (hcanon : fs.canonicalize path = some cp)
    (hallow : (underVaultRoot fs cfg cp || underExportRoot fs cfg cp || inKnownPaths st cp) = true) :
    read_file_content fs cfg st path =
      (match fs.metadataLen cp with
        | none => (Except.error ReadError.metadataFailed : Except ReadError String)
        | some len =>
          if len > MAX_SIZE then Except.error ReadError.tooLarge
          else
            match fs.readToString cp with
            | some content => Except.ok content
            | none => Except.error ReadError.readFailed) := by
  unfold underVaultRoot underExportRoot inKnownPaths at hallow
  unfold read_file_content
  simp only [hex, Bool.not_true, Bool.false_eq_true, if_false, hcanon]
  cases cfg with
  | none =>
    cases hk : st.known_paths.contains cp with
    | false => simp only [hk, Bool.false_or, Bool.or_false, Bool.false_eq_true] at hallow
    | true => simp only [hk, Bool.not_false, if_true, Bool.not_true, Bool.false_eq_true, if_false]
  | some config =>
    cases hv : fs.canonicalize config.vault_path with
    | none =>
      simp only [hv, Bool.not_false, if_true] at hallow ⊢
      cases hep : config.export_path with
      | none =>
        cases hk : st.known_paths.contains cp with
        | false => simp only [hep, hk, Bool.false_or, Bool.or_false, Bool.false_eq_true] at hallow
        | true => simp only [hep, hk, Bool.not_false, if_true, Bool.not_true, Bool.false_eq_true, if_false]
      | some export_path =>
        cases he : fs.canonicalize export_path with
        | none =>
          cases hk : st.known_paths.contains cp with
          | false => simp only [hep, he, hk, Bool.false_or, Bool.or_false, Bool.false_eq_true] at hallow
          | true => simp only [hep, he, hk, Bool.not_false, if_true, Bool.not_true, Bool.false_eq_true, if_false]
        | some export_canon =>
          cases hpe : export_canon.isPrefixOf cp with
          | true => simp only [hep, he, hpe, Bool.not_true, Bool.false_eq_true, if_false]
          | false =>
            cases hk : st.known_paths.contains cp with
            | false => simp only [hep, he, hpe, hk, Bool.false_or, Bool.or_false, Bool.false_eq_true] at hallow
            | true => simp only [hep, he, hpe, hk, Bool.not_false, if_true, Bool.not_true, Bool.false_eq_true, if_false]
    | some vault_canon =>
      cases hpv : vault_canon.isPrefixOf cp with
      | true => simp only [hv, hpv, Bool.not_true, Bool.false_eq_true, if_false]
      | false =>
        simp only [hv, hpv, Bool.not_false, if_true] at hallow ⊢
        cases hep : config.export_path with
        | none =>
          cases hk : st.known_paths.contains cp with
          | false => simp only [hep, hk, Bool.false_or, Bool.or_false, Bool.false_eq_true] at hallow
          | true => simp only [hep, hk, Bool.not_false, if_true, Bool.not_true, Bool.false_eq_true, if_false]
        | some export_path =>
          cases he : fs.canonicalize export_path with
          | none =>
            cases hk : st.known_paths.contains cp with
            | false => simp only [hep, he, hk, Bool.false_or, Bool.or_false, Bool.false_eq_true] at hallow
            | true => simp only [hep, he, hk, Bool.not_false, if_true, Bool.not_true, Bool.false_eq_true, if_false]
          | some export_canon =>
            cases hpe : export_canon.isPrefixOf cp with
            | true => simp only [hep, he, hpe, Bool.not_true, Bool.false_eq_true, if_false]
            | false =>
              cases hk : st.known_paths.contains cp with
              | false => simp only [hep, he, hpe, hk, Bool.false_or, Bool.or_false, Bool.false_eq_true] at hallow
              | true => simp only [hep, he, hpe, hk, Bool.not_false, if_true, Bool.not_true, Bool.false_eq_true, if_false]


/-- C2 (amended): an authorized read of a file whose size exceeds the 50 MiB
ceiling fails with the too-large kind; on a denied path the gate reports
access denied before the size check ever runs. -/
theorem read_too_large_when_authorized (fs : FileSystem) (cfg : Option Config) (st : AppState)
    (path : String) (cp : CanonPath) (len : Nat)
    (hex : fs.pathExists path = true)
    (hcanon : fs.canonicalize path = some cp)
    (hallow : (underVaultRoot fs cfg cp || underExportRoot fs cfg cp || inKnownPaths st cp) = true)
    (hmt : fs.metadataLen cp = some len)
    (hlen : len > MAX_SIZE) :
    read_file_content fs cfg st path = Except.error ReadError.tooLarge := by
  rw [read_authorized_eq_tail fs cfg st path cp hex hcanon hallow]
  simp [hmt, hlen]

/-- C10: when loading the configuration fails, the vault and export rules
are skipped without an error, and the gate admits exactly the known
paths. -/
theorem read_config_failure_known_paths_only (fs : FileSystem) (st : AppState)
    (path : String) (cp : CanonPath)
    (hex : fs.pathExists path = true)
    (hcanon : fs.canonicalize path = some cp) :
    read_file_content fs none st path = Except.error ReadError.accessDenied ↔
      inKnownPaths st cp = false := by
  have h := gate_denies_iff_no_rule fs none st path cp hex hcanon
  rwa [show underVaultRoot fs none cp = false from rfl,
       show underExportRoot fs none cp = false from rfl,
       Bool.false_or, Bool.false_or] at h

/-- C6: a completed scan replaces the known-paths set with exactly the
successful canonicalizations of the scanned session paths; a canonical path
under neither root and outside the new set is denied, while membership in
the new set authorizes it. -/
theorem scan_refreshes_gate (fs : FileSystem) (sessions : List ScanSession)
    (cfg : Option Config) (path : String) (cp : CanonPath)
    (hex : fs.pathExists path = true)
    (hcanon : fs.canonicalize path = some cp) :
    (cp ∈ update_known_paths fs sessions ↔
       ∃ s ∈ sessions, fs.canonicalize s.path = some cp) ∧
    (underVaultRoot fs cfg cp = false → underExportRoot fs cfg cp = false →
       cp ∉ update_known_paths fs sessions →
       read_file_content fs cfg ⟨update_known_paths fs sessions⟩ path
         = Except.error ReadError.accessDenied) ∧
    (cp ∈ update_known_paths fs sessions →
       read_file_content fs cfg ⟨update_known_paths fs sessions⟩ path
         ≠ Except.error ReadError.accessDenied) := by
  refine ⟨?_, ?_, ?_⟩
  · simp [update_known_paths, List.mem_filterMap]
  · intro h1 h2 h3
    rw [gate_denies_iff_no_rule fs cfg ⟨update_known_paths fs sessions⟩ path cp hex hcanon]
    simp [h1, h2, inKnownPaths, h3]
  · intro hmem
    rw [Ne, gate_denies_iff_no_rule fs cfg ⟨update_known_paths fs sessions⟩ path cp hex hcanon]
    simp [inKnownPaths, hmem]

/-- C8: after one batch upsert of three distinct sessions into a fresh
store, the modification-time map records exactly those three entries and
no other id. -/
theorem mtimes_after_upsert_batch (s1 s2 s3 x : String) (t1 t2 t3 : Int)
    (h12 : s1 ≠ s2) (h13 : s1 ≠ s3) (h23 : s2 ≠ s3)
    (hx1 : x ≠ s1) (hx2 : x ≠ s2) (hx3 : x ≠ s3) :
    (VaultDb.open_in_memory.upsert_batch [(s1, t1), (s2, t2), (s3, t3)]).get_all_session_mtimes s1
        = some t1 ∧
    (VaultDb.open_in_memory.upsert_batch [(s1, t1), (s2, t2), (s3, t3)]).get_all_session_mtimes s2
        = some t2 ∧
    (VaultDb.open_in_memory.upsert_batch [(s1, t1), (s2, t2), (s3, t3)]).get_all_session_mtimes s3
        = some t3 ∧
    (VaultDb.open_in_memory.upsert_batch [(s1, t1), (s2, t2), (s3, t3)]).get_all_session_mtimes x
        = none := by
  have hdb : VaultDb.open_in_memory.upsert_batch [(s1, t1), (s2, t2), (s3, t3)]
      = [(s1, t1), (s2, t2), (s3, t3)] := by
    simp [VaultDb.open_in_memory, VaultDb.upsert_batch, h12, h13, h23]
  unfold VaultDb.get_all_session_mtimes
  rw [hdb]
  refine ⟨?_, ?_, ?_, ?_⟩
  · simp [List.find?_cons]
  · simp [List.find?_cons, h12]
  · simp [List.find?_cons, h13, h23]
  · simp [List.find?_cons, Ne.symm hx1, Ne.symm hx2, Ne.symm hx3]

/-- C1: for a requested path that exists and canonicalizes, read_file_content
lets the read proceed past the gate if and only if the canonical path lies
under the configured vault root, lies under the configured export root, or
is an exact member of the known-paths set; when none of the three rules
matches, the call fails with the access-denied error instead of reading. -/
theorem read_gate_denies_iff (fs : FileSystem) (cfg : Option Config) (st : AppState)
    (path : String) (cp : CanonPath)
    (hex : fs.pathExists path = true)
    (hcanon : fs.canonicalize path = some cp) :
    read_file_content fs cfg st path = Except.error ReadError.accessDenied ↔
      (underVaultRoot fs cfg cp || underExportRoot fs cfg cp || inKnownPaths st cp) = false :=
  gate_denies_iff_no_rule fs cfg st path cp hex hcanon

/-- C1 witness: the gate characterization applied at a concrete file inside
the vault root. -/
theorem read_gate_denies_iff_witness :
    (read_file_content fsC1 (some cfgC1) ⟨[]⟩ "/vault/a.json"
        = Except.error ReadError.accessDenied ↔
      (underVaultRoot fsC1 (some cfgC1) ["vault", "a.json"] ||
       underExportRoot fsC1 (some cfgC1) ["vault", "a.json"] ||
       inKnownPaths ⟨[]⟩ ["vault", "a.json"]) = false) :=
  read_gate_denies_iff fsC1 (some cfgC1) ⟨[]⟩ "/vault/a.json" ["vault", "a.json"]
    (by decide) (by decide)

/-- C2 counterexample: an oversized file on a denied path yields access
denied, not the size-limit kind, so the size guard is not independent of
the authorization outcome. -/
theorem size_guard_not_independent :
    fsC2.metadataLen ["tmp", "big.txt"] = some 52428801 ∧
    52428801 > MAX_SIZE ∧
    read_file_content fsC2 none ⟨[]⟩ "/tmp/big.txt" = Except.error ReadError.accessDenied ∧
    read_file_content fsC2 none ⟨[]⟩ "/tmp/big.txt" ≠ Except.error ReadError.tooLarge := by
  refine ⟨by decide, by decide, by decide, by decide⟩

/-- C2 witness: the amended size guard applied at a concrete oversized
vault file. -/
theorem read_too_large_witness :
    (underVaultRoot fsC2w (some cfgC2w) ["vault", "big.json"] ||
     underExportRoot fsC2w (some cfgC2w) ["vault", "big.json"] ||
     inKnownPaths ⟨[]⟩ ["vault", "big.json"]) = true ∧
    read_file_content fsC2w (some cfgC2w) ⟨[]⟩ "/vault/big.json"
      = Except.error ReadError.tooLarge :=
  ⟨by decide,
   read_too_large_when_authorized fsC2w (some cfgC2w) ⟨[]⟩ "/vault/big.json"
     ["vault", "big.json"] 52428801 (by decide) (by decide) (by decide) (by decide) (by decide)⟩

/-- C3 counterexample: on a legacy file whose document is the bare JSON
number 5 the legacy extractor still yields a record (with the id taken from
the file stem) while the streaming extractor yields none. -/
theorem streaming_not_equivalent :
    extract_quick_metadata_old fC3 "ws"
      = some ⟨"abc", "vscode-copilot", none, none, FilePath.emptyPath,
              ⟨some "abc", some "json"⟩, 10, some "ws", none⟩ ∧
    extract_quick_metadata_new fC3 "ws" = none := by
  refine ⟨by decide, by decide⟩

/-- C3 witness: the agreement theorem applied at a concrete well-shaped
legacy file. -/
theorem extract_quick_metadata_agrees_witness :
    streamingAccepts fC3w = true ∧
    extract_quick_metadata_old fC3w "w" = extract_quick_metadata_new fC3w "w" :=
  ⟨by decide,
   extract_quick_metadata_agrees fC3w "w" (fun h => absurd h (by decide)) (fun _ => by decide)⟩

/-- C4 counterexample: an explicit 64-character custom title is carried
over verbatim, exceeding the claimed 60-characters-plus-ellipsis bound. -/
theorem title_bound_violated :
    extract_quick_metadata_new fC4 "w" = some mC4 ∧
    mC4.title = some longTitle64 ∧
    63 < longTitle64.data.length := by
  refine ⟨by decide, by decide, by decide⟩

/-- C4 witness: the amended title bound applied at fC4. -/
theorem extract_new_title_bound_witness :
    explicitTitle fC4 = some longTitle64 ∨
      ∃ s, longTitle64 = truncate60 s ∧ longTitle64.data.length ≤ 63 ∧
        (s.data.length ≤ 60 → longTitle64 = s) ∧
        (60 < s.data.length →
          longTitle64.data = s.data.take 60 ++ ('.' :: '.' :: '.' :: [])) :=
  extract_new_title_bound fC4 "w" mC4 longTitle64 (by decide) (by decide)

/-- C5 counterexample: a user-tagged line of 3 characters but 6 UTF-8 bytes
is accepted as fallback title even though the claim, read over characters,
requires it to be skipped. -/
theorem jsonl_fallback_counts_bytes :
    extract_quick_metadata_new fC5 "w"
      = some ⟨"sess", "vscode-copilot", some "ééé", none, FilePath.emptyPath,
              ⟨some "sess", some "jsonl"⟩, 1, some "w", none⟩ ∧
    "ééé".data.length ≤ 5 ∧
    5 < "ééé".utf8ByteSize := by
  refine ⟨by decide, by decide, by decide⟩

/-- C5 witness: the amended window rule applied at a JSONL file whose first
user-tagged line is too short and whose next one qualifies. -/
theorem jsonl_fallback_window_witness :
    extract_quick_metadata_new fC5w "w" = some mC5w ∧
    mC5w.title = ((fC5w.lines.drop 1).take 20).findSome? qualifyingTitle :=
  ⟨by decide,
   jsonl_fallback_window fC5w "w" mC5w (by decide) (by decide) (by decide)⟩

/-- C6 witness: the scan refresh applied at a one-session scan. -/
theorem scan_refreshes_gate_witness :
    ((["data", "s1.json"] ∈ update_known_paths fsC6 sessionsC6 ↔
        ∃ s ∈ sessionsC6, fsC6.canonicalize s.path = some ["data", "s1.json"]) ∧
     (underVaultRoot fsC6 none ["data", "s1.json"] = false →
        underExportRoot fsC6 none ["data", "s1.json"] = false →
        ["data", "s1.json"] ∉ update_known_paths fsC6 sessionsC6 →
        read_file_content fsC6 none ⟨update_known_paths fsC6 sessionsC6⟩ "/data/s1.json"
          = Except.error ReadError.accessDenied) ∧
     (["data", "s1.json"] ∈ update_known_paths fsC6 sessionsC6 →
        read_file_content fsC6 none ⟨update_known_paths fsC6 sessionsC6⟩ "/data/s1.json"
          ≠ Except.error ReadError.accessDenied)) :=
  scan_refreshes_gate fsC6 sessionsC6 none "/data/s1.json" ["data", "s1.json"]
    (by decide) (by decide)

/-- C7 witness: the session-id rule applied at a concrete file with an
embedded sessionId. -/
theorem session_id_rule_witness :
    mC7.id = (embeddedSessionId fC7).getD (fC7.path.stem.getD "") :=
  session_id_rule fC7 "w" mC7 (by decide)

/-- C8 witness: the store behavior at the ids and times of the repository
test. -/
theorem mtimes_after_upsert_batch_witness :
    (VaultDb.open_in_memory.upsert_batch [("s1", 1000), ("s2", 2000), ("s3", 3000)]).get_all_session_mtimes "s1"
        = some 1000 ∧
    (VaultDb.open_in_memory.upsert_batch [("s1", 1000), ("s2", 2000), ("s3", 3000)]).get_all_session_mtimes "s2"
        = some 2000 ∧
    (VaultDb.open_in_memory.upsert_batch [("s1", 1000), ("s2", 2000), ("s3", 3000)]).get_all_session_mtimes "s3"
        = some 3000 ∧
    (VaultDb.open_in_memory.upsert_batch [("s1", 1000), ("s2", 2000), ("s3", 3000)]).get_all_session_mtimes "s4"
        = none :=
  mtimes_after_upsert_batch "s1" "s2" "s3" "s4" 1000 2000 3000
    (by decide) (by decide) (by decide) (by decide) (by decide) (by decide)

/-- C10 witness: the known-paths-only rule applied with a failed
configuration load and a known canonical path. -/
theorem read_config_failure_witness :
    (read_file_content fsC10 none ⟨[["k", "f.json"]]⟩ "/k/f.json"
        = Except.error ReadError.accessDenied ↔
      inKnownPaths ⟨[["k", "f.json"]]⟩ ["k", "f.json"] = false) :=
  read_config_failure_known_paths_only fsC10 ⟨[["k", "f.json"]]⟩ "/k/f.json" ["k", "f.json"]
    (by decide) (by decide)

end EchoVault
